import Mathlib

/-!
Verification of the size-constrained image re-encoding procedure of
`automacoes/imagens/shrink_to_size.py` (duplicated in `ajustar_img.py`).

The Python code is shallowly embedded:

* `binary_search_quality` is embedded parameterized over an abstract
  deterministic encoder `enc : Int → List Nat` standing for
  `lambda q: bytes_of_save(img, fmt, quality=q, **save_kwargs)` applied to the
  fixed image, format and keyword arguments of one call.  Byte strings are
  `List Nat`; Python integers are `Int`; Python `//` is Lean `Int`
  division (both round toward negative infinity on positive divisors).
* Images are modelled by `PImage`: width, height, a mode tag, a row-major
  pixel buffer (one `List Nat` of channel values per pixel), a palette and
  the optional `info` transparency entry.  Pillow externals
  (`Image.Image.save`, `Image.Image.resize`, `math.sqrt`) are abstract
  parameters; everything written in the repository itself is concrete.
-/

/-! ### Quality binary search (`binary_search_quality`) -/

/-- Loop state of `binary_search_quality`: the Python locals `lo`, `hi`
and `best` (where `best` is `None` or a `(data, mid)` pair). -/
structure BSState where
  lo : Int
  hi : Int
  best : Option (List Nat × Int)

/-- One iteration of the `for _ in range(max_iters)` body of
`binary_search_quality`:
`mid = (lo + hi) // 2`; encode at `mid`; on `size <= target_bytes` record
`best = (data, mid)` and set `lo = mid + 1`, otherwise set `hi = mid - 1`. -/
def bsStep (enc : Int → List Nat) (target : Nat) (s : BSState) : BSState :=
  let mid : Int := (s.lo + s.hi) / 2
  let data := enc mid
  if data.length ≤ target then
    ⟨mid + 1, s.hi, some (data, mid)⟩
  else
    ⟨s.lo, mid - 1, s.best⟩

/-- The `for _ in range(max_iters)` loop of `binary_search_quality`. -/
def bsLoop (enc : Int → List Nat) (target : Nat) : Nat → BSState → BSState
  | 0, s => s
  | Nat.succ n, s => bsLoop enc target n (bsStep enc target s)

/-- `binary_search_quality(img, fmt, target_bytes, q_min, q_max, max_iters)`:
run the loop from `lo, hi = q_min, q_max` with `best = None`; afterwards, if
`best is None`, probe once at `q_min` and return `(data, q_min)` when that
fits, else `(None, None)`; otherwise return `best`. -/
def binary_search_quality (enc : Int → List Nat) (target : Nat)
    (q_min q_max : Int) (max_iters : Nat) : Option (List Nat) × Option Int :=
  let s := bsLoop enc target max_iters ⟨q_min, q_max, none⟩
  match s.best with
  | some (data, q) => (some data, some q)
  | none =>
      let data := enc q_min
      if data.length ≤ target then (some data, some q_min) else (none, none)

/-- The loop of the spec's early-exit variant: identical to `bsLoop` except
that it stops doing work as soon as `lo > hi`.  This definition follows the
spec's words ("optimize by stopping when `lo > hi`"), to be compared with
the source-faithful `bsLoop`. -/
def bsLoopEarly (enc : Int → List Nat) (target : Nat) : Nat → BSState → BSState
  | 0, s => s
  | Nat.succ n, s =>
      if s.hi < s.lo then s
      else bsLoopEarly enc target n (bsStep enc target s)

/-- The spec's early-exit variant of `binary_search_quality`: same wrapper,
but the loop exits as soon as `lo > hi`. -/
def binary_search_quality_early (enc : Int → List Nat) (target : Nat)
    (q_min q_max : Int) (max_iters : Nat) : Option (List Nat) × Option Int :=
  let s := bsLoopEarly enc target max_iters ⟨q_min, q_max, none⟩
  match s.best with
  | some (data, q) => (some data, some q)
  | none =>
      let data := enc q_min
      if data.length ≤ target then (some data, some q_min) else (none, none)

/-- Observer: the list of `mid` quality values probed by the loop of
`binary_search_quality`, in order. -/
def bsProbes (enc : Int → List Nat) (target : Nat) : Nat → BSState → List Int
  | 0, _ => []
  | Nat.succ n, s => ((s.lo + s.hi) / 2) :: bsProbes enc target n (bsStep enc target s)

/-- Numeric range invariant of the search state, for quality bounds
`q_min ≤ q_max`.  The recorded best quality can undershoot `q_min` by one
(after the bounds cross, `mid` can evaluate to `q_min - 1`). -/
def bsInBounds (q_min q_max : Int) (s : BSState) : Prop :=
  q_min ≤ s.lo ∧ s.lo ≤ q_max + 1 ∧ s.hi ≤ q_max ∧ s.lo ≤ s.hi + 2 ∧
    ∀ d q, s.best = some (d, q) → q_min - 1 ≤ q ∧ q ≤ q_max

theorem bsStep_inBounds (enc : Int → List Nat) (target : Nat)
    (q_min q_max : Int) (s : BSState) (h : bsInBounds q_min q_max s) :
    bsInBounds q_min q_max (bsStep enc target s) := by
  obtain ⟨h1, h2, h3, h4, h5⟩ := h
  simp only [bsStep]
  have hmid1 : 2 * ((s.lo + s.hi) / 2) ≤ s.lo + s.hi := by omega
  have hmid2 : s.lo + s.hi ≤ 2 * ((s.lo + s.hi) / 2) + 1 := by omega
  split
  · unfold bsInBounds
    dsimp only
    refine ⟨by omega, by omega, by omega, by omega, ?_⟩
    intro d q hdq
    injection hdq with hdq
    injection hdq with hd hq
    subst hq
    omega
  · unfold bsInBounds
    dsimp only
    refine ⟨by omega, by omega, by omega, by omega, ?_⟩
    intro d q hdq
    exact h5 d q hdq

theorem bsLoop_inBounds (enc : Int → List Nat) (target : Nat)
    (q_min q_max : Int) :
    ∀ (n : Nat) (s : BSState), bsInBounds q_min q_max s →
      bsInBounds q_min q_max (bsLoop enc target n s)
  | 0, _, h => h
  | Nat.succ n, s, h =>
      bsLoop_inBounds enc target q_min q_max n (bsStep enc target s)
        (bsStep_inBounds enc target q_min q_max s h)

/-- Recorded-success invariant: whatever `best` holds was produced by the
encoder at the recorded quality and fits the budget. -/
def bsBestOk (enc : Int → List Nat) (target : Nat) (s : BSState) : Prop :=
  ∀ d q, s.best = some (d, q) → d = enc q ∧ d.length ≤ target

theorem bsStep_bestOk (enc : Int → List Nat) (target : Nat) (s : BSState)
    (h : bsBestOk enc target s) : bsBestOk enc target (bsStep enc target s) := by
  simp only [bsStep]
  split
  · next hle =>
    intro d q hdq
    injection hdq with hdq
    injection hdq with hd hq
    subst hd; subst hq
    exact ⟨rfl, hle⟩
  · intro d q hdq
    exact h d q hdq

theorem bsLoop_bestOk (enc : Int → List Nat) (target : Nat) :
    ∀ (n : Nat) (s : BSState), bsBestOk enc target s →
      bsBestOk enc target (bsLoop enc target n s)
  | 0, _, h => h
  | Nat.succ n, s, h =>
      bsLoop_bestOk enc target n (bsStep enc target s)
        (bsStep_bestOk enc target s h)

example :
    binary_search_quality (fun q => List.replicate q.toNat 0) 4 5 5 8 =
      (some (List.replicate 4 0), some 4) := by decide

example :
    binary_search_quality_early (fun q => List.replicate q.toNat 0) 4 5 5 8 =
      (none, none) := by decide

/-- Claim C1: the claim as stated is false.  With an encoder whose output at
quality `q` has `q` bytes (monotone, hence realistic), budget 4 and the valid
bounds `quality_min = quality_max = 5`, `binary_search_quality` succeeds with
quality 4, which is not within `[5, 5]`: after the first probe at 5 fails,
the bounds cross and `mid = (5 + 4) // 2 = 4` is probed and recorded. -/
theorem binary_search_quality_bounds_cex :
    (binary_search_quality (fun q => List.replicate q.toNat 0) 4 5 5 8).1.isSome = true ∧
      (binary_search_quality (fun q => List.replicate q.toNat 0) 4 5 5 8).2 = some 4 ∧
      ¬ ((5 : Int) ≤ 4 ∧ (4 : Int) ≤ 5) := by decide

/-- Claim C1 (amended): for valid bounds `quality_min ≤ quality_max`, whenever
`binary_search_quality` returns a success value, the returned quality is an
integer within `[quality_min - 1, quality_max]` — it can undershoot the lower
bound by exactly one (and by no more), as the counterexample shows. -/
theorem binary_search_quality_bounds (enc : Int → List Nat) (target : Nat)
    (q_min q_max : Int) (max_iters : Nat) (hq : q_min ≤ q_max)
    (d : List Nat) (q : Int)
    (h : binary_search_quality enc target q_min q_max max_iters = (some d, some q)) :
    q_min - 1 ≤ q ∧ q ≤ q_max := by
  have hInv := bsLoop_inBounds enc target q_min q_max max_iters ⟨q_min, q_max, none⟩
    (by
      unfold bsInBounds
      dsimp only
      refine ⟨le_refl _, by omega, le_refl _, by omega, ?_⟩
      intro d0 q0 hdq
      exact Option.noConfusion hdq)
  simp only [binary_search_quality] at h
  revert h
  rcases hb : (bsLoop enc target max_iters ⟨q_min, q_max, none⟩).best with _ | ⟨d0, q0⟩
  · intro h
    dsimp only at h
    split at h
    · rw [Prod.mk.injEq] at h
      obtain ⟨-, hq2⟩ := h
      injection hq2 with hq2
      omega
    · injection h with h1 h2
      exact Option.noConfusion h1
  · intro h
    dsimp only at h
    rw [Prod.mk.injEq] at h
    obtain ⟨-, hq2⟩ := h
    injection hq2 with hq2
    subst hq2
    exact hInv.2.2.2.2 d0 q0 hb

theorem binary_search_quality_bounds_witness :
    ((5 : Int) ≤ 5) ∧ ((5 : Int) - 1 ≤ 4 ∧ (4 : Int) ≤ 5) :=
  ⟨by decide,
    binary_search_quality_bounds (fun q => List.replicate q.toNat 0) 4 5 5 8
      (by decide) (List.replicate 4 0) 4 (by decide)⟩

/-- Full invariant of the search state, used to compare the source's
full-iteration loop with the spec's early-exit variant.  When `best` is
still `None`, `lo` has never moved and, once the bounds have crossed, the
probe at `q_min` is known to exceed the budget; when `best = (d, q)`, the
last success was at `q = lo - 1`, `d` is its (deterministic) encoding, and
the gap `lo - hi` is at most one. -/
def bsInv2 (enc : Int → List Nat) (target : Nat) (q_min q_max : Int)
    (s : BSState) : Prop :=
  q_min ≤ s.lo ∧ s.lo ≤ q_max + 1 ∧ s.hi ≤ q_max ∧ s.lo ≤ s.hi + 2 ∧
    (match s.best with
     | none => s.lo = q_min ∧ (s.hi < s.lo → target < (enc q_min).length)
     | some (d, q) =>
         q = s.lo - 1 ∧ d = enc q ∧ (enc q).length ≤ target ∧ s.lo ≤ s.hi + 1)

theorem bsInv2_step (enc : Int → List Nat) (target : Nat) (q_min q_max : Int)
    (H : target < (enc (q_min - 1)).length ∨ (enc q_min).length ≤ target)
    (s : BSState) (h : bsInv2 enc target q_min q_max s) :
    bsInv2 enc target q_min q_max (bsStep enc target s) := by
  obtain ⟨lo, hi, best⟩ := s
  unfold bsInv2 at h
  dsimp only at h
  obtain ⟨h1, h2, h3, h4, h5⟩ := h
  have hmid1 : 2 * ((lo + hi) / 2) ≤ lo + hi := by omega
  have hmid2 : lo + hi ≤ 2 * ((lo + hi) / 2) + 1 := by omega
  cases best with
  | none =>
    obtain ⟨hlo, hcross⟩ := h5
    by_cases hc : hi < lo
    · have hqlen : target < (enc q_min).length := hcross hc
      have hmid : (lo + hi) / 2 = q_min - 1 := by omega
      have hfail : ¬ ((enc ((lo + hi) / 2)).length ≤ target) := by
        rw [hmid]
        rcases H with H | H
        · omega
        · omega
      simp only [bsStep]
      rw [if_neg hfail]
      unfold bsInv2
      dsimp only
      exact ⟨by omega, by omega, by omega, by omega, hlo, fun _ => hqlen⟩
    · simp only [bsStep]
      split
      · next hsucc =>
        unfold bsInv2
        dsimp only
        exact ⟨by omega, by omega, by omega, by omega, by omega, rfl, hsucc, by omega⟩
      · next hfail =>
        unfold bsInv2
        dsimp only
        refine ⟨by omega, by omega, by omega, by omega, hlo, ?_⟩
        intro hcc
        have hmid : (lo + hi) / 2 = q_min := by omega
        rw [hmid] at hfail
        omega
  | some p =>
    obtain ⟨d, q⟩ := p
    obtain ⟨hq5, hd, hlen, hgap⟩ := h5
    by_cases hc : hi < lo
    · have hmid : (lo + hi) / 2 = q := by omega
      have hsucc : (enc ((lo + hi) / 2)).length ≤ target := by rw [hmid]; exact hlen
      simp only [bsStep]
      rw [if_pos hsucc]
      unfold bsInv2
      dsimp only
      exact ⟨by omega, by omega, by omega, by omega, by omega, rfl, hsucc, by omega⟩
    · simp only [bsStep]
      split
      · next hsucc =>
        unfold bsInv2
        dsimp only
        exact ⟨by omega, by omega, by omega, by omega, by omega, rfl, hsucc, by omega⟩
      · next hfail =>
        unfold bsInv2
        dsimp only
        exact ⟨by omega, by omega, by omega, by omega, hq5, hd, hlen, by omega⟩

/-- Once the bounds have crossed, one more source-faithful iteration changes
neither the recorded best result nor the crossedness. -/
theorem bsStep_crossed (enc : Int → List Nat) (target : Nat) (q_min q_max : Int)
    (H : target < (enc (q_min - 1)).length ∨ (enc q_min).length ≤ target)
    (s : BSState) (h : bsInv2 enc target q_min q_max s) (hc : s.hi < s.lo) :
    (bsStep enc target s).best = s.best ∧
      (bsStep enc target s).hi < (bsStep enc target s).lo := by
  obtain ⟨lo, hi, best⟩ := s
  unfold bsInv2 at h
  dsimp only at h
  obtain ⟨h1, h2, h3, h4, h5⟩ := h
  have hmid1 : 2 * ((lo + hi) / 2) ≤ lo + hi := by omega
  have hmid2 : lo + hi ≤ 2 * ((lo + hi) / 2) + 1 := by omega
  dsimp only at hc
  cases best with
  | none =>
    obtain ⟨hlo, hcross⟩ := h5
    have hqlen : target < (enc q_min).length := hcross hc
    have hmid : (lo + hi) / 2 = q_min - 1 := by omega
    have hfail : ¬ ((enc ((lo + hi) / 2)).length ≤ target) := by
      rw [hmid]
      rcases H with H | H
      · omega
      · omega
    simp only [bsStep]
    rw [if_neg hfail]
    exact ⟨rfl, by dsimp only; omega⟩
  | some p =>
    obtain ⟨d, q⟩ := p
    obtain ⟨hq5, hd, hlen, hgap⟩ := h5
    have hmid : (lo + hi) / 2 = q := by omega
    have hsucc : (enc ((lo + hi) / 2)).length ≤ target := by rw [hmid]; exact hlen
    simp only [bsStep]
    rw [if_pos hsucc]
    constructor
    · dsimp only
      rw [hmid, hd]
    · dsimp only
      omega

theorem bsLoop_crossed (enc : Int → List Nat) (target : Nat) (q_min q_max : Int)
    (H : target < (enc (q_min - 1)).length ∨ (enc q_min).length ≤ target) :
    ∀ (n : Nat) (s : BSState), bsInv2 enc target q_min q_max s → s.hi < s.lo →
      (bsLoop enc target n s).best = s.best
  | 0, _, _, _ => rfl
  | Nat.succ n, s, h, hc => by
      have hstep := bsStep_crossed enc target q_min q_max H s h hc
      have hInv := bsInv2_step enc target q_min q_max H s h
      show (bsLoop enc target n (bsStep enc target s)).best = s.best
      rw [bsLoop_crossed enc target q_min q_max H n (bsStep enc target s) hInv hstep.2]
      exact hstep.1

theorem bsLoopEarly_crossed (enc : Int → List Nat) (target : Nat) :
    ∀ (n : Nat) (s : BSState), s.hi < s.lo → bsLoopEarly enc target n s = s
  | 0, _, _ => rfl
  | Nat.succ _, s, hc => by
      unfold bsLoopEarly
      rw [if_pos hc]

theorem bsLoop_best_eq_early (enc : Int → List Nat) (target : Nat)
    (q_min q_max : Int)
    (H : target < (enc (q_min - 1)).length ∨ (enc q_min).length ≤ target) :
    ∀ (n : Nat) (s : BSState), bsInv2 enc target q_min q_max s →
      (bsLoop enc target n s).best = (bsLoopEarly enc target n s).best
  | 0, _, _ => rfl
  | Nat.succ n, s, h => by
      by_cases hc : s.hi < s.lo
      · rw [bsLoopEarly_crossed enc target (Nat.succ n) s hc]
        exact bsLoop_crossed enc target q_min q_max H (Nat.succ n) s h hc
      · show (bsLoop enc target n (bsStep enc target s)).best =
          (bsLoopEarly enc target (Nat.succ n) s).best
        unfold bsLoopEarly
        rw [if_neg hc]
        exact bsLoop_best_eq_early enc target q_min q_max H n (bsStep enc target s)
          (bsInv2_step enc target q_min q_max H s h)

/-- Claim C2: the claim as stated is false.  The same monotone encoder
(output at quality `q` has `q` bytes), budget 4 and valid bounds `[5, 5]`
distinguish the two variants: the full-iteration loop keeps probing after
the bounds cross, reaches the degenerate `mid = 4 = quality_min - 1`, and
succeeds there, while the early-exit variant stops with no success and then
fails its post-loop probe at quality 5.  The first conjunct checks that this
encoder satisfies the claim's monotonicity assumption. -/
theorem binary_search_quality_full_vs_early_cex :
    (∀ q1 q2 : Int, q1 ≤ q2 →
        (List.replicate q1.toNat 0).length ≤ (List.replicate q2.toNat 0).length) ∧
      binary_search_quality (fun q => List.replicate q.toNat 0) 4 5 5 8 ≠
        binary_search_quality_early (fun q => List.replicate q.toNat 0) 4 5 5 8 := by
  constructor
  · intro q1 q2 h12
    simp only [List.length_replicate]
    omega
  · decide

/-- Claim C2 (amended): the full-iteration loop and the early-exit variant
return the same result, provided that (in addition to determinism) the
out-of-range probe at `quality_min - 1` cannot fit the budget unless the
probe at `quality_min` already does.  Under that proviso the redundant
iterations after the bounds cross only re-probe the recorded quality (or
keep failing), so the recorded best never changes; without it, a monotone
encoder can still make the two variants disagree, as the counterexample
shows. -/
theorem binary_search_quality_full_eq_early (enc : Int → List Nat)
    (target : Nat) (q_min q_max : Int) (max_iters : Nat) (hq : q_min ≤ q_max)
    (H : target < (enc (q_min - 1)).length ∨ (enc q_min).length ≤ target) :
    binary_search_quality enc target q_min q_max max_iters =
      binary_search_quality_early enc target q_min q_max max_iters := by
  have hbest := bsLoop_best_eq_early enc target q_min q_max H max_iters
    ⟨q_min, q_max, none⟩
    (by
      unfold bsInv2
      dsimp only
      exact ⟨le_refl _, by omega, le_refl _, by omega, rfl, fun hcc => by omega⟩)
  simp only [binary_search_quality, binary_search_quality_early]
  rw [hbest]

theorem binary_search_quality_full_eq_early_witness :
    ((5 : Int) ≤ 95 ∧
        ((3 : Nat) < (List.replicate ((5 : Int) - 1).toNat 0).length ∨
          (List.replicate (5 : Int).toNat 0).length ≤ 3)) ∧
      binary_search_quality (fun q => List.replicate q.toNat 0) 3 5 95 8 =
        binary_search_quality_early (fun q => List.replicate q.toNat 0) 3 5 95 8 :=
  ⟨⟨by decide, by decide⟩,
    binary_search_quality_full_eq_early (fun q => List.replicate q.toNat 0)
      3 5 95 8 (by decide) (by decide)⟩

theorem bsStep_best_none_iff (enc : Int → List Nat) (target : Nat) (s : BSState) :
    (bsStep enc target s).best = none ↔
      (s.best = none ∧ target < (enc ((s.lo + s.hi) / 2)).length) := by
  simp only [bsStep]
  split
  · next hsucc =>
    constructor
    · intro hx
      exact Option.noConfusion hx
    · rintro ⟨-, hlt⟩
      omega
  · next hfail =>
    dsimp only
    constructor
    · intro hx
      exact ⟨hx, by omega⟩
    · rintro ⟨hx, -⟩
      exact hx

/-- `best` is still `None` after the loop exactly when every probe of the
loop exceeded the budget. -/
theorem bsLoop_best_none_iff (enc : Int → List Nat) (target : Nat) :
    ∀ (n : Nat) (s : BSState),
      (bsLoop enc target n s).best = none ↔
        (s.best = none ∧ ∀ q ∈ bsProbes enc target n s, target < (enc q).length)
  | 0, s => by
      simp [bsLoop, bsProbes]
  | Nat.succ n, s => by
      show (bsLoop enc target n (bsStep enc target s)).best = none ↔ _
      rw [bsLoop_best_none_iff enc target n (bsStep enc target s),
        bsStep_best_none_iff]
      simp only [bsProbes, List.mem_cons]
      constructor
      · rintro ⟨⟨hb, hmid⟩, hall⟩
        refine ⟨hb, ?_⟩
        rintro q (rfl | hq)
        · exact hmid
        · exact hall q hq
      · rintro ⟨hb, hall⟩
        exact ⟨⟨hb, hall _ (Or.inl rfl)⟩, fun q hq => hall q (Or.inr hq)⟩

/-- Claim C3: `binary_search_quality` returns the failure marker
`(None, None)` exactly when every probe of the `max_iters` loop iterations
exceeded the budget and the explicit post-loop probe at `quality_min` also
exceeds it; in every other case it returns a `(bytes, quality)` pair whose
byte length is at most the budget. -/
theorem binary_search_quality_failure_characterization (enc : Int → List Nat)
    (target : Nat) (q_min q_max : Int) (max_iters : Nat) :
    (binary_search_quality enc target q_min q_max max_iters = (none, none) ↔
      ((∀ q ∈ bsProbes enc target max_iters ⟨q_min, q_max, none⟩,
          target < (enc q).length) ∧
        target < (enc q_min).length)) ∧
    (∀ d q,
      binary_search_quality enc target q_min q_max max_iters = (some d, some q) →
        d.length ≤ target) ∧
    (binary_search_quality enc target q_min q_max max_iters = (none, none) ∨
      ∃ d q,
        binary_search_quality enc target q_min q_max max_iters =
          (some d, some q)) := by
  have hOk := bsLoop_bestOk enc target max_iters ⟨q_min, q_max, none⟩
    (fun d q hdq => Option.noConfusion hdq)
  have hNone := bsLoop_best_none_iff enc target max_iters ⟨q_min, q_max, none⟩
  simp only [binary_search_quality]
  rcases hb : (bsLoop enc target max_iters ⟨q_min, q_max, none⟩).best with _ | ⟨d0, q0⟩
  · rw [hb] at hNone
    have hAll : ∀ q ∈ bsProbes enc target max_iters ⟨q_min, q_max, none⟩,
        target < (enc q).length := (hNone.mp rfl).2
    dsimp only
    split
    · next hql =>
      refine ⟨?_, ?_, ?_⟩
      · constructor
        · intro hx
          injection hx with hx1 hx2
          exact Option.noConfusion hx1
        · rintro ⟨-, hlt⟩
          omega
      · intro d q hdq
        rw [Prod.mk.injEq] at hdq
        obtain ⟨hd, -⟩ := hdq
        injection hd with hd
        subst hd
        exact hql
      · exact Or.inr ⟨enc q_min, q_min, rfl⟩
    · next hql =>
      refine ⟨?_, ?_, ?_⟩
      · constructor
        · intro _
          exact ⟨hAll, by omega⟩
        · intro _
          rfl
      · intro d q hdq
        injection hdq with hd hq2
        exact Option.noConfusion hd
      · exact Or.inl rfl
  · dsimp only
    refine ⟨?_, ?_, ?_⟩
    · constructor
      · intro hx
        injection hx with hx1 hx2
        exact Option.noConfusion hx1
      · rintro ⟨hAll, -⟩
        have hcontra := hNone.mpr ⟨rfl, hAll⟩
        rw [hb] at hcontra
        exact Option.noConfusion hcontra
    · intro d q hdq
      rw [Prod.mk.injEq] at hdq
      obtain ⟨hd, -⟩ := hdq
      injection hd with hd
      subst hd
      exact (hOk d0 q0 hb).2
    · exact Or.inr ⟨d0, q0, rfl⟩

/-! ### The image model (`ensure_mode_for_format` and friends) -/

/-- The Pillow pixel modes the program distinguishes: `"RGB"`, `"RGBA"`,
`"LA"`, `"L"` and `"P"` (palette-indexed). -/
inductive PMode where
  | RGB
  | RGBA
  | LA
  | L
  | P
deriving DecidableEq

/-- A decoded raster image: dimensions, mode tag, row-major pixel buffer
(one channel-value list per pixel), the palette (for mode `P`) and the
optional `info` transparency entry (a transparent palette index). -/
structure PImage where
  width : Nat
  height : Nat
  mode : PMode
  pixels : List (List Nat)
  palette : List (List Nat)
  transparency : Option Nat
deriving DecidableEq

/-- Whether `"A" in img.getbands()`: true exactly for the modes that carry
an alpha band. -/
def hasAlphaBand : PMode → Bool
  | PMode.RGBA => true
  | PMode.LA => true
  | _ => false

/-- Per-pixel semantics of `img.convert("RGBA")` for each source mode:
`RGB` gains an opaque alpha, `LA`/`L` replicate luminance into the three
color channels, `P` looks the index up in the palette and maps the
transparent index (if any) to alpha 0. -/
def toRGBApx (palette : List (List Nat)) (transparency : Option Nat) :
    PMode → List Nat → List Nat
  | PMode.RGB, px => px.take 3 ++ [255]
  | PMode.RGBA, px => px
  | PMode.LA, px => [px.getD 0 0, px.getD 0 0, px.getD 0 0, px.getD 1 0]
  | PMode.L, px => [px.getD 0 0, px.getD 0 0, px.getD 0 0, 255]
  | PMode.P, px =>
      (palette.getD (px.getD 0 0) [0, 0, 0]).take 3 ++
        [if transparency = some (px.getD 0 0) then 0 else 255]

/-- Per-pixel semantics of `img.convert("RGB")`: alpha bands are dropped
without blending, luminance is replicated, palette indices are looked up. -/
def toRGBpx (palette : List (List Nat)) : PMode → List Nat → List Nat
  | PMode.RGB, px => px
  | PMode.RGBA, px => px.take 3
  | PMode.LA, px => [px.getD 0 0, px.getD 0 0, px.getD 0 0]
  | PMode.L, px => [px.getD 0 0, px.getD 0 0, px.getD 0 0]
  | PMode.P, px => (palette.getD (px.getD 0 0) [0, 0, 0]).take 3

/-- `img.convert(mode)` for the two target modes the program uses. -/
def convert (img : PImage) (m : PMode) : PImage :=
  match m with
  | PMode.RGBA =>
      { img with
        mode := PMode.RGBA
        pixels := img.pixels.map (toRGBApx img.palette img.transparency img.mode) }
  | PMode.RGB =>
      { img with
        mode := PMode.RGB
        pixels := img.pixels.map (toRGBpx img.palette img.mode) }
  | m => { img with mode := m }

/-- Pillow's `MULDIV255(a, b)` approximation of `a * b / 255`:
`tmp = a * b + 128; ((tmp >> 8) + tmp) >> 8`. -/
def muldiv255 (a b : Nat) : Nat :=
  ((a * b + 128) / 256 + (a * b + 128)) / 256

/-- Pillow's per-channel `paste`-with-mask blend:
`MULDIV255(bg, 255 - mask) + MULDIV255(src, mask)`. -/
def blendChannel (mask bgc srcc : Nat) : Nat :=
  muldiv255 bgc (255 - mask) + muldiv255 srcc mask

/-- The effect of `bg.paste(img, mask=img.split()[-1])` on one RGBA pixel of
`img`, with `bg` an opaque white background: blend each color channel onto
255 weighted by the pixel's alpha. -/
def flattenPx (px : List Nat) : List Nat :=
  [blendChannel (px.getD 3 0) 255 (px.getD 0 0),
    blendChannel (px.getD 3 0) 255 (px.getD 1 0),
    blendChannel (px.getD 3 0) 255 (px.getD 2 0)]

/-- `bg = Image.new("RGB", img.size, (255, 255, 255)); bg.paste(img,
mask=img.split()[-1]); return bg` applied to an RGBA image `img`: a fresh
opaque-color image of the same dimensions whose pixels are the alpha-weighted
composite onto white. -/
def flattenOntoWhite (img : PImage) : PImage :=
  { width := img.width
    height := img.height
    mode := PMode.RGB
    pixels := img.pixels.map flattenPx
    palette := []
    transparency := none }

/-- Python's `str.upper()` restricted to ASCII, where it agrees with Lean's
`Char.toUpper` applied characterwise.  (Equal to `String.toUpper`, but
defined by structural recursion on the character list so that the kernel can
evaluate it.) -/
def pyUpper (s : String) : String := ⟨s.data.map Char.toUpper⟩

theorem pyUpper_eq_toUpper (s : String) : pyUpper s = s.toUpper := by
  simp only [String.toUpper, pyUpper]
  exact (String.map_eq Char.toUpper s).symm

/-- `ensure_mode_for_format(img, fmt)`, translated clause by clause from the
source.  Python's `fmt.upper()` is modelled by `pyUpper` (the format
identifiers involved are ASCII, where the two agree). -/
def ensure_mode_for_format (img : PImage) (fmt : String) : PImage :=
  let fmt := pyUpper fmt
  if fmt = "JPEG" ∨ fmt = "JPG" then
    if img.mode = PMode.RGBA ∨ img.mode = PMode.LA ∨
        (img.mode = PMode.P ∧ img.transparency.isSome) then
      let img2 := if img.mode ≠ PMode.RGBA then convert img PMode.RGBA else img
      flattenOntoWhite img2
    else if img.mode ≠ PMode.RGB then convert img PMode.RGB
    else img
  else if fmt = "WEBP" then img
  else
    if ¬ (img.mode = PMode.RGB ∨ img.mode = PMode.RGBA) then
      convert img (if hasAlphaBand img.mode then PMode.RGBA else PMode.RGB)
    else img

theorem convert_width (img : PImage) (m : PMode) : (convert img m).width = img.width := by
  cases m <;> rfl

theorem convert_height (img : PImage) (m : PMode) : (convert img m).height = img.height := by
  cases m <;> rfl

theorem convert_mode (img : PImage) (m : PMode) : (convert img m).mode = m := by
  cases m <;> rfl

theorem muldiv255_zero_right (a : Nat) : muldiv255 a 0 = 0 := by
  unfold muldiv255
  omega

theorem muldiv255_255_of_le (a : Nat) (h : a ≤ 255) : muldiv255 a 255 = a := by
  unfold muldiv255
  omega

theorem blendChannel_transparent (c : Nat) : blendChannel 0 255 c = 255 := by
  unfold blendChannel muldiv255
  omega

theorem blendChannel_opaque (c : Nat) (h : c ≤ 255) : blendChannel 255 255 c = c := by
  unfold blendChannel muldiv255
  omega

theorem getD_le_of_forall_le (l : List Nat) (h : ∀ v ∈ l, v ≤ 255) (i : Nat) :
    l.getD i 0 ≤ 255 := by
  rw [List.getD_eq_getElem?_getD]
  rcases hlt : l[i]? with _ | v
  · exact Nat.zero_le 255
  · exact h v (List.getElem?_mem hlt)

theorem getD_palette_le (pal : List (List Nat))
    (hp : ∀ e ∈ pal, ∀ v ∈ e, v ≤ 255) (i : Nat) :
    ∀ v ∈ pal.getD i [0, 0, 0], v ≤ 255 := by
  rw [List.getD_eq_getElem?_getD]
  rcases hlt : pal[i]? with _ | e
  · intro v hv
    simp only [Option.getD_none, List.mem_cons, List.not_mem_nil, or_false] at hv
    rcases hv with rfl | rfl | rfl <;> omega
  · exact hp e (List.getElem?_mem hlt)

/-- Converting any pixel to RGBA keeps every channel within a byte, given a
byte-valued source pixel and palette. -/
theorem toRGBApx_le (pal : List (List Nat)) (tr : Option Nat) (m : PMode)
    (px : List Nat) (hpx : ∀ v ∈ px, v ≤ 255)
    (hp : ∀ e ∈ pal, ∀ v ∈ e, v ≤ 255) :
    ∀ v ∈ toRGBApx pal tr m px, v ≤ 255 := by
  cases m <;> simp only [toRGBApx] <;> intro v hv
  · rcases List.mem_append.mp hv with hv | hv
    · exact hpx v (List.mem_of_mem_take hv)
    · simp only [List.mem_singleton] at hv
      omega
  · exact hpx v hv
  · simp only [List.mem_cons, List.not_mem_nil, or_false] at hv
    rcases hv with rfl | rfl | rfl | rfl
    · exact getD_le_of_forall_le px hpx 0
    · exact getD_le_of_forall_le px hpx 0
    · exact getD_le_of_forall_le px hpx 0
    · exact getD_le_of_forall_le px hpx 1
  · simp only [List.mem_cons, List.not_mem_nil, or_false] at hv
    rcases hv with rfl | rfl | rfl | rfl
    · exact getD_le_of_forall_le px hpx 0
    · exact getD_le_of_forall_le px hpx 0
    · exact getD_le_of_forall_le px hpx 0
    · omega
  · rcases List.mem_append.mp hv with hv | hv
    · exact getD_palette_le pal hp (px.getD 0 0) v (List.mem_of_mem_take hv)
    · simp only [List.mem_singleton] at hv
      subst hv
      split <;> omega

/-- A byte-valued RGBA pixel flattens onto white so that alpha 0 gives pure
white and alpha 255 keeps the three color channels. -/
theorem flattenPx_extremes (px : List Nat) (hb : ∀ v ∈ px, v ≤ 255) :
    (px.getD 3 0 = 0 → flattenPx px = [255, 255, 255]) ∧
    (px.getD 3 0 = 255 → flattenPx px = [px.getD 0 0, px.getD 1 0, px.getD 2 0]) := by
  constructor
  · intro h0
    unfold flattenPx
    rw [h0, blendChannel_transparent, blendChannel_transparent, blendChannel_transparent]
  · intro h255
    unfold flattenPx
    rw [h255, blendChannel_opaque _ (getD_le_of_forall_le px hb 0),
      blendChannel_opaque _ (getD_le_of_forall_le px hb 1),
      blendChannel_opaque _ (getD_le_of_forall_le px hb 2)]

theorem convert_rgba_pixels_of_rgba (img : PImage) (h : img.mode = PMode.RGBA) :
    (convert img PMode.RGBA).pixels = img.pixels := by
  simp only [convert]
  rw [h]
  have hfun : toRGBApx img.palette img.transparency PMode.RGBA = fun px => px := rfl
  rw [hfun]
  simp

/-- Claim C9: `ensure_mode_for_format` never changes the image dimensions,
on any branch (flatten, convert, or pass-through). -/
theorem ensure_mode_for_format_preserves_size (img : PImage) (fmt : String) :
    (ensure_mode_for_format img fmt).width = img.width ∧
      (ensure_mode_for_format img fmt).height = img.height := by
  unfold ensure_mode_for_format
  dsimp only
  constructor <;> (repeat' split) <;>
    simp [flattenOntoWhite, convert_width, convert_height]

theorem ensure_mode_jpeg_rgb (img : PImage) (fmt : String)
    (hjp : pyUpper fmt = "JPEG" ∨ pyUpper fmt = "JPG") :
    (ensure_mode_for_format img fmt).mode = PMode.RGB := by
  unfold ensure_mode_for_format
  dsimp only
  rw [if_pos hjp]
  split
  · rfl
  · split
    · exact convert_mode img PMode.RGB
    · next h2 => exact not_not.mp h2

theorem ensure_mode_other_rgb_or_rgba (img : PImage) (fmt : String)
    (hjp : ¬ (pyUpper fmt = "JPEG" ∨ pyUpper fmt = "JPG"))
    (hwebp : ¬ pyUpper fmt = "WEBP") :
    (ensure_mode_for_format img fmt).mode = PMode.RGB ∨
      (ensure_mode_for_format img fmt).mode = PMode.RGBA := by
  unfold ensure_mode_for_format
  dsimp only
  rw [if_neg hjp, if_neg hwebp]
  split
  · rw [convert_mode]
    split
    · exact Or.inr rfl
    · exact Or.inl rfl
  · next h => exact not_not.mp h

theorem ensure_mode_fixed_jpeg (img : PImage) (fmt : String)
    (hjp : pyUpper fmt = "JPEG" ∨ pyUpper fmt = "JPG")
    (hmode : img.mode = PMode.RGB) :
    ensure_mode_for_format img fmt = img := by
  unfold ensure_mode_for_format
  dsimp only
  rw [if_pos hjp]
  rw [if_neg (show ¬ (img.mode = PMode.RGBA ∨ img.mode = PMode.LA ∨
    (img.mode = PMode.P ∧ img.transparency.isSome)) by simp [hmode])]
  rw [if_neg (show ¬ img.mode ≠ PMode.RGB by simp [hmode])]

theorem ensure_mode_fixed_webp (img : PImage) (fmt : String)
    (hjp : ¬ (pyUpper fmt = "JPEG" ∨ pyUpper fmt = "JPG"))
    (hwebp : pyUpper fmt = "WEBP") :
    ensure_mode_for_format img fmt = img := by
  unfold ensure_mode_for_format
  dsimp only
  rw [if_neg hjp, if_pos hwebp]

theorem ensure_mode_fixed_other (img : PImage) (fmt : String)
    (hjp : ¬ (pyUpper fmt = "JPEG" ∨ pyUpper fmt = "JPG"))
    (hwebp : ¬ pyUpper fmt = "WEBP")
    (hmode : img.mode = PMode.RGB ∨ img.mode = PMode.RGBA) :
    ensure_mode_for_format img fmt = img := by
  unfold ensure_mode_for_format
  dsimp only
  rw [if_neg hjp, if_neg hwebp, if_neg (not_not_intro hmode)]

/-- Claim C7: the mode normalizer is idempotent — for every image and every
target format string, applying `ensure_mode_for_format` to its own output
returns the output unchanged (hence in particular a byte-identical pixel
buffer). -/
theorem ensure_mode_for_format_idempotent (img : PImage) (fmt : String) :
    ensure_mode_for_format (ensure_mode_for_format img fmt) fmt =
      ensure_mode_for_format img fmt := by
  by_cases hjp : pyUpper fmt = "JPEG" ∨ pyUpper fmt = "JPG"
  · exact ensure_mode_fixed_jpeg _ fmt hjp (ensure_mode_jpeg_rgb img fmt hjp)
  · by_cases hwebp : pyUpper fmt = "WEBP"
    · have h1 := ensure_mode_fixed_webp img fmt hjp hwebp
      rw [h1]
      exact h1
    · exact ensure_mode_fixed_other _ fmt hjp hwebp
        (ensure_mode_other_rgb_or_rgba img fmt hjp hwebp)

/-- Claim C6: for a JPEG-family target and an image carrying alpha (RGBA,
LA, or palette-indexed with a transparency entry), the normalizer returns an
opaque-color (RGB) image of the same dimensions whose pixel buffer is the
alpha-weighted composite of the RGBA interpretation of the source onto a
white background: fully transparent source pixels become pure white
`(255, 255, 255)` and fully opaque source pixels keep their original color
channels.  The pixel-value hypotheses say the buffer and palette are
byte-valued, as decoded images are. -/
theorem ensure_mode_for_format_flattens (img : PImage) (fmt : String)
    (hfmt : pyUpper fmt = "JPEG" ∨ pyUpper fmt = "JPG")
    (halpha : img.mode = PMode.RGBA ∨ img.mode = PMode.LA ∨
      (img.mode = PMode.P ∧ img.transparency.isSome))
    (hpx : ∀ px ∈ img.pixels, ∀ v ∈ px, v ≤ 255)
    (hpal : ∀ e ∈ img.palette, ∀ v ∈ e, v ≤ 255) :
    (ensure_mode_for_format img fmt).mode = PMode.RGB ∧
    (ensure_mode_for_format img fmt).width = img.width ∧
    (ensure_mode_for_format img fmt).height = img.height ∧
    (ensure_mode_for_format img fmt).pixels =
      ((convert img PMode.RGBA).pixels).map flattenPx ∧
    ∀ px ∈ (convert img PMode.RGBA).pixels,
      (px.getD 3 0 = 0 → flattenPx px = [255, 255, 255]) ∧
      (px.getD 3 0 = 255 →
        flattenPx px = [px.getD 0 0, px.getD 1 0, px.getD 2 0]) := by
  have hbound : ∀ px ∈ (convert img PMode.RGBA).pixels, ∀ v ∈ px, v ≤ 255 := by
    intro px hmem
    simp only [convert] at hmem
    rcases List.mem_map.mp hmem with ⟨px0, hpx0, rfl⟩
    exact toRGBApx_le _ _ _ _ (hpx px0 hpx0) hpal
  have heq : ensure_mode_for_format img fmt =
      flattenOntoWhite (convert img PMode.RGBA) := by
    unfold ensure_mode_for_format
    dsimp only
    rw [if_pos hfmt, if_pos halpha]
    by_cases hrgba : img.mode = PMode.RGBA
    · rw [if_neg (not_not_intro hrgba)]
      unfold flattenOntoWhite
      rw [convert_width, convert_height, convert_rgba_pixels_of_rgba img hrgba]
    · rw [if_pos hrgba]
  rw [heq]
  refine ⟨rfl, ?_, ?_, rfl, ?_⟩
  · show (convert img PMode.RGBA).width = img.width
    exact convert_width img PMode.RGBA
  · show (convert img PMode.RGBA).height = img.height
    exact convert_height img PMode.RGBA
  · intro px hmem
    exact flattenPx_extremes px (hbound px hmem)

theorem ensure_mode_for_format_flattens_witness :
    ((pyUpper "jpeg" = "JPEG" ∨ pyUpper "jpeg" = "JPG") ∧
      (PImage.mode ⟨1, 2, PMode.RGBA, [[10, 20, 30, 255], [1, 2, 3, 0]], [], none⟩ =
          PMode.RGBA ∨
        PImage.mode ⟨1, 2, PMode.RGBA, [[10, 20, 30, 255], [1, 2, 3, 0]], [], none⟩ =
          PMode.LA ∨
        (PImage.mode ⟨1, 2, PMode.RGBA, [[10, 20, 30, 255], [1, 2, 3, 0]], [], none⟩ =
            PMode.P ∧
          (PImage.transparency
            ⟨1, 2, PMode.RGBA, [[10, 20, 30, 255], [1, 2, 3, 0]], [], none⟩).isSome))) ∧
    (ensure_mode_for_format
      ⟨1, 2, PMode.RGBA, [[10, 20, 30, 255], [1, 2, 3, 0]], [], none⟩ "jpeg").mode =
        PMode.RGB :=
  ⟨⟨by decide, by decide⟩,
    (ensure_mode_for_format_flattens
      ⟨1, 2, PMode.RGBA, [[10, 20, 30, 255], [1, 2, 3, 0]], [], none⟩ "jpeg"
      (by decide) (by decide) (by decide) (by decide)).1⟩

example :
    (ensure_mode_for_format
      ⟨1, 2, PMode.RGBA, [[10, 20, 30, 255], [1, 2, 3, 0]], [], none⟩ "jpeg").pixels =
        [[10, 20, 30], [255, 255, 255]] := by decide

/-! ### Uppercasing (`fmt.upper()`) -/

theorem char_ofNat_toNat_valid (n : Nat) (h : n < 55296) : (Char.ofNat n).toNat = n := by
  have hv : n.isValidChar := Or.inl h
  rw [Char.ofNat, dif_pos hv]
  simp only [Char.ofNatAux, Char.toNat, UInt32.toNat, BitVec.toNat_ofNatLt]

theorem char_toUpper_eq_of_lower (c : Char) (h : 97 ≤ c.toNat ∧ c.toNat ≤ 122) :
    c.toUpper = Char.ofNat (c.toNat - 32) := by
  unfold Char.toUpper
  simp only [ge_iff_le, if_pos h]

theorem char_toUpper_eq_of_not_lower (c : Char)
    (h : ¬ (97 ≤ c.toNat ∧ c.toNat ≤ 122)) : c.toUpper = c := by
  unfold Char.toUpper
  simp only [ge_iff_le, if_neg h]

theorem char_toUpper_idem (c : Char) : c.toUpper.toUpper = c.toUpper := by
  by_cases h : 97 ≤ c.toNat ∧ c.toNat ≤ 122
  · rw [char_toUpper_eq_of_lower c h]
    apply char_toUpper_eq_of_not_lower
    rw [char_ofNat_toNat_valid (c.toNat - 32) (by omega)]
    omega
  · rw [char_toUpper_eq_of_not_lower c h, char_toUpper_eq_of_not_lower c h]

/-- `s.upper().upper() == s.upper()`: uppercasing is idempotent, so every
function that begins with `fmt = fmt.upper()` is insensitive to the case of
its format argument. -/
theorem pyUpper_idem (s : String) : pyUpper (pyUpper s) = pyUpper s := by
  unfold pyUpper
  simp only [List.map_map]
  have hcomp : Char.toUpper ∘ Char.toUpper = Char.toUpper := funext char_toUpper_idem
  rw [hcomp]

/-! ### Encode-and-measure (`bytes_of_save`) -/

/-- Python's `dict.setdefault(k, v)`: add the key with the given value only
when it is absent.  Keyword-argument dictionaries are modelled as
association lists; boolean parameter values are modelled as `1`/`0`. -/
def setdefault (kwargs : List (String × Int)) (k : String) (v : Int) :
    List (String × Int) :=
  if kwargs.any (fun p => p.1 = k) then kwargs else kwargs ++ [(k, v)]

/-- Modelled from the spec: Pillow's `Image.SAVE` registry, whose keys are
the registered format identifiers (uppercase names).  The literal string
`"quality"` is not a format identifier and is never a key. -/
def pillowFormats : List String :=
  ["BLP", "BMP", "DDS", "DIB", "EPS", "GIF", "ICNS", "ICO", "IM", "JPEG",
    "JPEG2000", "MPO", "MSP", "PALM", "PCX", "PDF", "PNG", "PPM", "SGI",
    "TGA", "TIFF", "WEBP", "XBM"]

/-- Modelled from the spec: which Pillow encoders accept a `quality` save
parameter.  Besides JPEG and WEBP (handled by dedicated branches), the
JPEG-based MPO encoder accepts `quality`. -/
def pillowAcceptsQuality (f : String) : Bool :=
  f = "JPEG" || f = "JPG" || f = "WEBP" || f = "MPO"

/-- `bytes_of_save(img, fmt, quality, **save_kwargs)`, translated from the
source.  The underlying Pillow encoder `img.save(buf, format=..., **kwargs)`
is the abstract parameter `save` (it receives the image, the format string
passed to `save`, and the keyword arguments); `Image.SAVE` is the abstract
registry parameter `SAVE`.  The`"quality" in Image.SAVE` test of the source
is the membership test `SAVE.contains "quality"`. -/
def bytes_of_save (save : PImage → String → List (String × Int) → List Nat)
    (SAVE : List String) (img : PImage) (fmt : String) (quality : Int)
    (save_kwargs : List (String × Int)) : List Nat :=
  let kwargs := save_kwargs
  let fmt_u := pyUpper fmt
  if fmt_u = "JPEG" ∨ fmt_u = "JPG" then
    let kwargs := setdefault kwargs "optimize" 1
    let kwargs := setdefault kwargs "quality" quality
    let kwargs := setdefault kwargs "progressive" 1
    save img "JPEG" kwargs
  else if fmt_u = "WEBP" then
    let kwargs := setdefault kwargs "quality" quality
    let kwargs := setdefault kwargs "method" 6
    let kwargs := setdefault kwargs "lossless" 0
    save img "WEBP" kwargs
  else
    let kwargs :=
      if SAVE.contains "quality" then setdefault kwargs "quality" quality
      else kwargs
    save img fmt_u kwargs

/-- In the fallback branch, whenever `"quality"` is not a key of the save
registry (as it never is in Pillow), the keyword arguments are passed to the
encoder unchanged: the quality argument is dropped. -/
theorem bytes_of_save_other_drops_quality
    (save : PImage → String → List (String × Int) → List Nat)
    (SAVE : List String) (img : PImage) (fmt : String) (quality : Int)
    (kw : List (String × Int))
    (hfmt : ¬ (pyUpper fmt = "JPEG" ∨ pyUpper fmt = "JPG"))
    (hwebp : ¬ pyUpper fmt = "WEBP")
    (hSAVE : SAVE.contains "quality" = false) :
    bytes_of_save save SAVE img fmt quality kw = save img (pyUpper fmt) kw := by
  unfold bytes_of_save
  dsimp only
  rw [if_neg hfmt, if_neg hwebp, if_neg (by rw [hSAVE]; exact Bool.false_ne_true)]

/-- Claim C8: the code never passes `quality` through for formats outside
the JPEG family and WEBP, even when that format's encoder accepts a quality
parameter — `"quality" in Image.SAVE` tests membership of the literal string
`"quality"` among the registered format identifiers, which is always false.
MPO's (JPEG-based) encoder accepts `quality`, yet the keyword arguments
reach the encoder with no quality entry added, for every encoder behaviour
`save`, image, quality value and caller kwargs. -/
theorem bytes_of_save_mpo_quality_dropped
    (save : PImage → String → List (String × Int) → List Nat)
    (img : PImage) (quality : Int) (kw : List (String × Int)) :
    pillowAcceptsQuality "MPO" = true ∧
      bytes_of_save save pillowFormats img "MPO" quality kw = save img "MPO" kw := by
  constructor
  · decide
  · rw [bytes_of_save_other_drops_quality save pillowFormats img "MPO" quality kw
      (by decide) (by decide) (by decide)]
    rw [show pyUpper "MPO" = "MPO" from by decide]

/-! ### Downscaling (`scale_by_factor`) -/

/-- Python's `int(...)` on a real value: truncation toward zero. -/
def pyInt (q : ℚ) : Int := if q < 0 then -⌊-q⌋ else ⌊q⌋

/-- `scale_by_factor(img, factor)`, translated from the source; the
`img.resize((new_w, new_h), Image.LANCZOS)` resampling primitive is the
abstract parameter `resize` (receiving the image and the requested
dimensions).  The float products `w * factor` are modelled as exact rational
arithmetic. -/
def scale_by_factor (resize : PImage → Nat → Nat → PImage) (img : PImage)
    (factor : ℚ) : PImage :=
  let w := img.width
  let h := img.height
  let new_w : Nat := (max 1 (pyInt ((w : ℚ) * factor))).toNat
  let new_h : Nat := (max 1 (pyInt ((h : ℚ) * factor))).toNat
  if new_w = w ∧ new_h = h then
    resize img (max 1 (w - 1)) (max 1 (h - 1))
  else
    resize img new_w new_h

theorem pyInt_mul_bounds (w : Nat) (f : ℚ) (hw : 1 ≤ w) (h0 : 0 < f)
    (h1 : f < 1) :
    0 ≤ pyInt ((w : ℚ) * f) ∧ pyInt ((w : ℚ) * f) ≤ (w : Int) - 1 := by
  have hwpos : (0 : ℚ) < (w : ℚ) := by exact_mod_cast hw
  have hnonneg : (0 : ℚ) ≤ (w : ℚ) * f := le_of_lt (mul_pos hwpos h0)
  have hpy : pyInt ((w : ℚ) * f) = ⌊(w : ℚ) * f⌋ := by
    unfold pyInt
    rw [if_neg (not_lt.mpr hnonneg)]
  have hlt : (w : ℚ) * f < ((w : Int) : ℚ) := by
    push_cast
    exact mul_lt_of_lt_one_right hwpos h1
  have hfloor := Int.floor_lt.mpr hlt
  have hfl0 := Int.floor_nonneg.mpr hnonneg
  omega

/-- Claim C5: for a decoded image (positive dimensions) and a scale factor
strictly between 0 and 1, `scale_by_factor` requests dimensions that never
exceed the input's and are each at least 1; and when the computed scaled
dimensions (floor of dimension times factor, floored at 1) coincide with the
input dimensions, it instead requests each dimension reduced by exactly one
pixel, floored at 1.  The `resize` hypothesis is Pillow's contract that
`img.resize(size)` returns an image of the requested size. -/
theorem scale_by_factor_bounds (resize : PImage → Nat → Nat → PImage)
    (img : PImage) (factor : ℚ)
    (hres : ∀ i a b, (resize i a b).width = a ∧ (resize i a b).height = b)
    (hw : 1 ≤ img.width) (hh : 1 ≤ img.height)
    (h0 : 0 < factor) (h1 : factor < 1) :
    (1 ≤ (scale_by_factor resize img factor).width ∧
      (scale_by_factor resize img factor).width ≤ img.width) ∧
    (1 ≤ (scale_by_factor resize img factor).height ∧
      (scale_by_factor resize img factor).height ≤ img.height) ∧
    (((max 1 (pyInt ((img.width : ℚ) * factor))).toNat = img.width ∧
        (max 1 (pyInt ((img.height : ℚ) * factor))).toNat = img.height) →
      ((scale_by_factor resize img factor).width = max 1 (img.width - 1) ∧
        (scale_by_factor resize img factor).height = max 1 (img.height - 1))) := by
  have hwb := pyInt_mul_bounds img.width factor hw h0 h1
  have hhb := pyInt_mul_bounds img.height factor hh h0 h1
  unfold scale_by_factor
  dsimp only
  split
  · next heq =>
    rw [(hres img (max 1 (img.width - 1)) (max 1 (img.height - 1))).1,
      (hres img (max 1 (img.width - 1)) (max 1 (img.height - 1))).2]
    refine ⟨⟨by omega, by omega⟩, ⟨by omega, by omega⟩, fun _ => ⟨rfl, rfl⟩⟩
  · next hne =>
    rw [(hres img _ _).1, (hres img _ _).2]
    refine ⟨⟨by omega, by omega⟩, ⟨by omega, by omega⟩, fun hc => absurd hc hne⟩

theorem scale_by_factor_bounds_witness :
    ((∀ i a b,
        ((fun (i : PImage) (a b : Nat) =>
            { i with width := a, height := b }) i a b).width = a ∧
        ((fun (i : PImage) (a b : Nat) =>
            { i with width := a, height := b }) i a b).height = b) ∧
      1 ≤ (4 : Nat) ∧ 1 ≤ (3 : Nat) ∧ (0 : ℚ) < 1 / 2 ∧ (1 / 2 : ℚ) < 1) ∧
    (1 ≤ (scale_by_factor
        (fun (i : PImage) (a b : Nat) => { i with width := a, height := b })
        ⟨4, 3, PMode.RGB, [], [], none⟩ (1 / 2)).width ∧
      (scale_by_factor
        (fun (i : PImage) (a b : Nat) => { i with width := a, height := b })
        ⟨4, 3, PMode.RGB, [], [], none⟩ (1 / 2)).width ≤ 4) :=
  ⟨⟨fun _ _ _ => ⟨rfl, rfl⟩, by decide, by decide, by norm_num, by norm_num⟩,
    (scale_by_factor_bounds
      (fun (i : PImage) (a b : Nat) => { i with width := a, height := b })
      ⟨4, 3, PMode.RGB, [], [], none⟩ (1 / 2) (fun _ _ _ => ⟨rfl, rfl⟩)
      (by decide) (by decide) (by norm_num) (by norm_num)).1⟩

/-! ### The driving procedure (`compress_to_target`) -/

/-- Every branch of `bytes_of_save` returns the encoder's output, so it is
non-empty whenever the encoder never produces empty output. -/
theorem bytes_of_save_length_pos
    (save : PImage → String → List (String × Int) → List Nat)
    (SAVE : List String) (img : PImage) (fmt : String) (quality : Int)
    (kw : List (String × Int))
    (hsave : ∀ i f k, 0 < (save i f k).length) :
    0 < (bytes_of_save save SAVE img fmt quality kw).length := by
  unfold bytes_of_save
  dsimp only
  repeat' split
  all_goals exact hsave _ _ _

/-- A successful `binary_search_quality` result is the deterministic encoding
of its reported quality and fits the budget. -/
theorem binary_search_quality_success_encodes (enc : Int → List Nat)
    (target : Nat) (q_min q_max : Int) (it : Nat) (d : List Nat)
    (qopt : Option Int)
    (h : binary_search_quality enc target q_min q_max it = (some d, qopt)) :
    ∃ qq, qopt = some qq ∧ d = enc qq ∧ d.length ≤ target := by
  have hOk := bsLoop_bestOk enc target it ⟨q_min, q_max, none⟩
    (fun d0 q0 hdq => Option.noConfusion hdq)
  simp only [binary_search_quality] at h
  revert h
  rcases hb : (bsLoop enc target it ⟨q_min, q_max, none⟩).best with _ | ⟨d0, q0⟩
  · intro h
    dsimp only at h
    split at h
    · next hql =>
      rw [Prod.mk.injEq] at h
      obtain ⟨hd, hq⟩ := h
      injection hd with hd
      subst hd
      exact ⟨q_min, hq.symm, rfl, hql⟩
    · injection h with h1 h2
      exact Option.noConfusion h1
  · intro h
    dsimp only at h
    rw [Prod.mk.injEq] at h
    obtain ⟨hd, hq⟩ := h
    injection hd with hd
    subst hd
    obtain ⟨hde, hlen⟩ := hOk d0 q0 hb
    exact ⟨q0, hq.symm, hde, hlen⟩

/-- The record the procedure hands back to the CLI layer, with the write of
the chosen byte buffer to `output_path` modelled by returning the buffer:
output bytes, `len(data) // 1024`, the final `(width, height)`, and the
quality used (`None` only in the impossible mixed success shape). -/
structure CompressResult where
  bytes_out : List Nat
  size_kb : Nat
  size : Nat × Nat
  quality_used : Option Int

/-- The `while current_bytes > target_bytes and passes < max_passes` loop of
`compress_to_target`, with `fuel = max_passes - passes` remaining
iterations.  `math.sqrt` is the abstract parameter `sqrtApprox`; the clamp
`min (·) 0.95` then `max (·) 0.5` and the `0.98` safety margin are exact
rationals.  Besides the result it returns the number of loop iterations
executed. -/
def compressBackoff (save : PImage → String → List (String × Int) → List Nat)
    (SAVE : List String) (resize : PImage → Nat → Nat → PImage)
    (sqrtApprox : ℚ → ℚ) (fmt : String) (quality_min quality_max : Int)
    (save_kwargs : List (String × Int)) (target_bytes : Nat) :
    Nat → PImage → List Nat → CompressResult × Nat
  | 0, cur_img, data_low =>
      (⟨data_low, data_low.length / 1024, (cur_img.width, cur_img.height),
        some quality_min⟩, 0)
  | Nat.succ fuel, cur_img, data_low =>
      if data_low.length ≤ target_bytes then
        (⟨data_low, data_low.length / 1024, (cur_img.width, cur_img.height),
          some quality_min⟩, 0)
      else
        let factor := sqrtApprox ((target_bytes : ℚ) / (data_low.length : ℚ)) * (49 / 50)
        let factor := min factor (19 / 20)
        let factor := max factor (1 / 2)
        let cur2 := scale_by_factor resize cur_img factor
        match binary_search_quality
            (fun q => bytes_of_save save SAVE cur2 fmt q save_kwargs)
            target_bytes quality_min quality_max 8 with
        | (some d, q) => (⟨d, d.length / 1024, (cur2.width, cur2.height), q⟩, 1)
        | (none, _) =>
            let dl2 := bytes_of_save save SAVE cur2 fmt quality_min save_kwargs
            let r := compressBackoff save SAVE resize sqrtApprox fmt quality_min
              quality_max save_kwargs target_bytes fuel cur2 dl2
            (r.1, r.2 + 1)

/-- `compress_to_target(...)`, translated from the source: uppercase the
format, normalize the mode, optionally pre-downscale to `max_width`, run the
quality search once (with its default `max_iters = 8`), and on failure hand
off to the resolution backoff loop.  Returns the result record and the
number of backoff iterations executed. -/
def compress_to_target (save : PImage → String → List (String × Int) → List Nat)
    (SAVE : List String) (resize : PImage → Nat → Nat → PImage)
    (sqrtApprox : ℚ → ℚ) (img0 : PImage) (target_kb : Nat) (fmt : String)
    (max_width : Option Nat) (quality_min quality_max : Int)
    (max_passes : Nat) (save_kwargs : List (String × Int)) :
    CompressResult × Nat :=
  let fmt := pyUpper fmt
  let img := ensure_mode_for_format img0 fmt
  let img :=
    match max_width with
    | some mw =>
        if mw < img.width then
          scale_by_factor resize img ((mw : ℚ) / (img.width : ℚ))
        else img
    | none => img
  let target_bytes := target_kb * 1024
  match binary_search_quality
      (fun q => bytes_of_save save SAVE img fmt q save_kwargs)
      target_bytes quality_min quality_max 8 with
  | (some d, q) => (⟨d, d.length / 1024, (img.width, img.height), q⟩, 0)
  | (none, _) =>
      let data_low := bytes_of_save save SAVE img fmt quality_min save_kwargs
      compressBackoff save SAVE resize sqrtApprox fmt quality_min quality_max
        save_kwargs target_bytes max_passes img data_low

theorem compressBackoff_props
    (save : PImage → String → List (String × Int) → List Nat)
    (SAVE : List String) (resize : PImage → Nat → Nat → PImage)
    (sqrtApprox : ℚ → ℚ) (fmt : String) (quality_min quality_max : Int)
    (save_kwargs : List (String × Int)) (target_bytes : Nat)
    (hsave : ∀ i f k, 0 < (save i f k).length) :
    ∀ (fuel : Nat) (cur : PImage) (dl : List Nat),
      dl = bytes_of_save save SAVE cur fmt quality_min save_kwargs →
      (compressBackoff save SAVE resize sqrtApprox fmt quality_min quality_max
          save_kwargs target_bytes fuel cur dl).2 ≤ fuel ∧
      0 < (compressBackoff save SAVE resize sqrtApprox fmt quality_min
          quality_max save_kwargs target_bytes fuel cur dl).1.bytes_out.length ∧
      (compressBackoff save SAVE resize sqrtApprox fmt quality_min quality_max
          save_kwargs target_bytes fuel cur dl).1.size_kb =
        (compressBackoff save SAVE resize sqrtApprox fmt quality_min quality_max
          save_kwargs target_bytes fuel cur dl).1.bytes_out.length / 1024 ∧
      (target_bytes < (compressBackoff save SAVE resize sqrtApprox fmt
          quality_min quality_max save_kwargs target_bytes fuel cur
          dl).1.bytes_out.length →
        (compressBackoff save SAVE resize sqrtApprox fmt quality_min quality_max
            save_kwargs target_bytes fuel cur dl).1.quality_used =
          some quality_min ∧
        ∃ im,
          (compressBackoff save SAVE resize sqrtApprox fmt quality_min
              quality_max save_kwargs target_bytes fuel cur dl).1.bytes_out =
            bytes_of_save save SAVE im fmt quality_min save_kwargs ∧
          (compressBackoff save SAVE resize sqrtApprox fmt quality_min
              quality_max save_kwargs target_bytes fuel cur dl).1.size =
            (im.width, im.height))
  | 0, cur, dl, hdl => by
      unfold compressBackoff
      dsimp only
      refine ⟨Nat.le_refl 0, ?_, rfl, ?_⟩
      · rw [hdl]
        exact bytes_of_save_length_pos save SAVE cur fmt quality_min save_kwargs hsave
      · intro _
        exact ⟨rfl, cur, hdl, rfl⟩
  | Nat.succ fuel, cur, dl, hdl => by
      unfold compressBackoff
      dsimp only
      split
      · next hle =>
        refine ⟨Nat.zero_le _, ?_, rfl, ?_⟩
        · rw [hdl]
          exact bytes_of_save_length_pos save SAVE cur fmt quality_min save_kwargs hsave
        · intro _
          exact ⟨rfl, cur, hdl, rfl⟩
      · next hgt =>
        split
        · next d q heq =>
          obtain ⟨qq, hqq, hdq, hlen⟩ :=
            binary_search_quality_success_encodes _ _ _ _ _ _ _ heq
          refine ⟨by omega, ?_, rfl, ?_⟩
          · dsimp only
            rw [hdq]
            exact bytes_of_save_length_pos save SAVE _ fmt qq save_kwargs hsave
          · intro hover
            exact absurd hover (by dsimp only at hlen hover ⊢; omega)
        · next heq =>
          dsimp only
          refine ⟨Nat.succ_le_succ
              (compressBackoff_props save SAVE resize sqrtApprox fmt quality_min
                quality_max save_kwargs target_bytes hsave fuel _ _ rfl).1,
            (compressBackoff_props save SAVE resize sqrtApprox fmt quality_min
                quality_max save_kwargs target_bytes hsave fuel _ _ rfl).2.1,
            (compressBackoff_props save SAVE resize sqrtApprox fmt quality_min
                quality_max save_kwargs target_bytes hsave fuel _ _ rfl).2.2.1,
            (compressBackoff_props save SAVE resize sqrtApprox fmt quality_min
                quality_max save_kwargs target_bytes hsave fuel _ _ rfl).2.2.2⟩

/-- Claim C4: for every input, the resolution backoff loop inside
`compress_to_target` executes at most `max_passes` iterations (the second
component counts executed iterations), and the procedure always returns a
non-empty encoded byte buffer whose reported size is the buffer's length
divided by 1024 with truncation; whenever the returned buffer still exceeds
the budget — which covers every exhausted-loop exit, since successful exits
fit the budget — the returned bytes are the `quality_min` encoding of the
final image and the reported quality equals `quality_min`.  The hypothesis
is the encoder contract that saving always produces at least one byte. -/
theorem compress_to_target_props
    (save : PImage → String → List (String × Int) → List Nat)
    (SAVE : List String) (resize : PImage → Nat → Nat → PImage)
    (sqrtApprox : ℚ → ℚ) (img0 : PImage) (target_kb : Nat) (fmt : String)
    (max_width : Option Nat) (quality_min quality_max : Int)
    (max_passes : Nat) (save_kwargs : List (String × Int))
    (hsave : ∀ i f k, 0 < (save i f k).length) :
    (compress_to_target save SAVE resize sqrtApprox img0 target_kb fmt
        max_width quality_min quality_max max_passes save_kwargs).2 ≤
      max_passes ∧
    0 < (compress_to_target save SAVE resize sqrtApprox img0 target_kb fmt
        max_width quality_min quality_max max_passes
        save_kwargs).1.bytes_out.length ∧
    (compress_to_target save SAVE resize sqrtApprox img0 target_kb fmt
        max_width quality_min quality_max max_passes save_kwargs).1.size_kb =
      (compress_to_target save SAVE resize sqrtApprox img0 target_kb fmt
        max_width quality_min quality_max max_passes
        save_kwargs).1.bytes_out.length / 1024 ∧
    (target_kb * 1024 <
        (compress_to_target save SAVE resize sqrtApprox img0 target_kb fmt
          max_width quality_min quality_max max_passes
          save_kwargs).1.bytes_out.length →
      (compress_to_target save SAVE resize sqrtApprox img0 target_kb fmt
          max_width quality_min quality_max max_passes
          save_kwargs).1.quality_used = some quality_min ∧
      ∃ im,
        (compress_to_target save SAVE resize sqrtApprox img0 target_kb fmt
            max_width quality_min quality_max max_passes
            save_kwargs).1.bytes_out =
          bytes_of_save save SAVE im (pyUpper fmt) quality_min save_kwargs ∧
        (compress_to_target save SAVE resize sqrtApprox img0 target_kb fmt
            max_width quality_min quality_max max_passes save_kwargs).1.size =
          (im.width, im.height)) := by
  unfold compress_to_target
  dsimp only
  split
  · next d q heq =>
    obtain ⟨qq, hqq, hdq, hlen⟩ :=
      binary_search_quality_success_encodes _ _ _ _ _ _ _ heq
    refine ⟨Nat.zero_le _, ?_, rfl, ?_⟩
    · dsimp only
      rw [hdq]
      exact bytes_of_save_length_pos save SAVE _ (pyUpper fmt) qq save_kwargs hsave
    · intro hover
      exact absurd hover (by dsimp only at hlen hover ⊢; omega)
  · next heq =>
    exact compressBackoff_props save SAVE resize sqrtApprox (pyUpper fmt)
      quality_min quality_max save_kwargs (target_kb * 1024) hsave max_passes
      _ _ rfl

theorem compress_to_target_props_witness :
    (∀ (i : PImage) (f : String) (k : List (String × Int)),
        0 < ((fun (_ : PImage) (_ : String) (_ : List (String × Int)) => [0])
          i f k).length) ∧
    (compress_to_target
        (fun (_ : PImage) (_ : String) (_ : List (String × Int)) => [0]) []
        (fun (i : PImage) (a b : Nat) => { i with width := a, height := b })
        (fun (x : ℚ) => x) ⟨1, 1, PMode.RGB, [[7]], [], none⟩ 0 "PNG" none
        5 95 2 []).2 ≤ 2 :=
  ⟨fun _ _ _ => Nat.one_pos,
    (compress_to_target_props
      (fun (_ : PImage) (_ : String) (_ : List (String × Int)) => [0]) []
      (fun (i : PImage) (a b : Nat) => { i with width := a, height := b })
      (fun (x : ℚ) => x) ⟨1, 1, PMode.RGB, [[7]], [], none⟩ 0 "PNG" none
      5 95 2 [] (fun _ _ _ => Nat.one_pos)).1⟩

/-- Claim C10: the pipeline treats the format string case-insensitively —
`ensure_mode_for_format`, `bytes_of_save` and `compress_to_target` each
begin with `fmt = fmt.upper()`, so every one of them returns the same
result on `f` and on the uppercased form of `f` (uppercasing is
idempotent). -/
theorem pipeline_format_case_insensitive
    (save : PImage → String → List (String × Int) → List Nat)
    (SAVE : List String) (resize : PImage → Nat → Nat → PImage)
    (sqrtApprox : ℚ → ℚ) (img img0 : PImage) (target_kb : Nat) (fmt : String)
    (max_width : Option Nat) (quality quality_min quality_max : Int)
    (max_passes : Nat) (save_kwargs : List (String × Int)) :
    ensure_mode_for_format img fmt = ensure_mode_for_format img (pyUpper fmt) ∧
    bytes_of_save save SAVE img fmt quality save_kwargs =
      bytes_of_save save SAVE img (pyUpper fmt) quality save_kwargs ∧
    compress_to_target save SAVE resize sqrtApprox img0 target_kb fmt
        max_width quality_min quality_max max_passes save_kwargs =
      compress_to_target save SAVE resize sqrtApprox img0 target_kb
        (pyUpper fmt) max_width quality_min quality_max max_passes
        save_kwargs := by
  refine ⟨?_, ?_, ?_⟩
  · simp only [ensure_mode_for_format, pyUpper_idem]
  · simp only [bytes_of_save, pyUpper_idem]
  · simp only [compress_to_target, pyUpper_idem]

example :
    ensure_mode_for_format
        ⟨1, 2, PMode.RGBA, [[10, 20, 30, 255], [1, 2, 3, 0]], [], none⟩ "Jpeg" =
      ensure_mode_for_format
        ⟨1, 2, PMode.RGBA, [[10, 20, 30, 255], [1, 2, 3, 0]], [], none⟩ "JPEG" := by
  decide
